import Mathlib

/-!
Verification of the FIRE fact-checker's search-retrieval client and
verification loop against its specification.

The definitions below are a shallow embedding of `eval/fire/query_serper.py`
(the `SerperAPI` class: retry loop, structured-result extraction, evidence
serialization) and of the citation micro-format consumed in `app.py`
(the `[Source: url]` bracket pattern).  Python dicts appearing in backend
JSON responses are modelled as structures with `Option` fields (absent key =
`none`) and association lists in insertion order; Python truthiness of
strings is emptiness, of `requests.Response` objects it is `status < 400`.
-/

namespace Fire

/-- A loosely-typed Python value, as found in backend JSON fields.  Only the
shapes the parser inspects are distinguished: strings, numbers, and a
catch-all object. -/
inductive PyVal where
  | pstr (s : String)
  | pint (n : Int)
  | pobj
deriving DecidableEq, Repr

/-- Python truthiness of a `PyVal` (`if answer:`). -/
def pyTruthy : PyVal → Bool
  | .pstr s => s != ""
  | .pint n => n != 0
  | .pobj => true

/-- Python `isinstance(v, str)`. -/
def pyIsStr : PyVal → Bool
  | .pstr _ => true
  | _ => false

/-- Extract the string payload (only used under an `isinstance(v, str)` guard). -/
def pyStr : PyVal → String
  | .pstr s => s
  | _ => ""

/-- `snippet.replace('\n', ' ')`: the source replaces the single character
`'\n'` by a space, which is a character map. -/
def collapseNl (s : String) : String :=
  ⟨s.data.map (fun c => if c = '\n' then ' ' else c)⟩

/-- The `answerBox` section of a Serper response (`results.get('answerBox')`). -/
structure AnswerBox where
  answer : Option PyVal := none
  snippet : Option PyVal := none
  link : String := ""
deriving DecidableEq, Repr

/-- The `knowledgeGraph` section of a Serper response. -/
structure KnowledgeGraph where
  title : String := ""
  type : Option String := none
  description : Option String := none
  descriptionLink : Option String := none
  website : Option String := none
  attributes : List (String × String) := []
deriving DecidableEq, Repr

/-- One ranked result (an element of `results['organic']`, `['news']`, ...).
`snippet = none` models `'snippet' not in result`. -/
structure OrganicResult where
  title : Option String := none
  link : String := ""
  snippet : Option String := none
  attributes : List (String × String) := []
deriving DecidableEq, Repr

/-- A structured Serper backend response.  `sections` holds the
result-type-keyed ranked lists (`organic`, `news`, `places`, `images`). -/
structure SerperResults where
  answerBox : Option AnswerBox := none
  knowledgeGraph : Option KnowledgeGraph := none
  sections : List (String × List OrganicResult) := []
deriving DecidableEq, Repr

/-- An Evidence Item: `{'snippet': ..., 'link': ..., 'title': ...}`. -/
structure Item where
  snippet : String
  link : String
  title : String
deriving DecidableEq, Repr

/-- `NO_RESULT_MSG` from `query_serper.py`. -/
def NO_RESULT_MSG : String := "No good Google Search result was found"

/-- The `SerperAPI` constructor configuration. -/
structure SerperAPI where
  serper_api_key : String
  gl : String := "us"
  hl : String := "en"
  k : Nat := 1
  tbs : Option String := none
  search_type : String := "search"
deriving DecidableEq, Repr

/-- `self.result_key_for_type`: `{'news': 'news', 'places': 'places',
'images': 'images', 'search': 'organic'}`. -/
def result_key_for_type : String → String
  | "news" => "news"
  | "places" => "places"
  | "images" => "images"
  | _ => "organic"

/-- Items contributed by the answer box: the direct answer (if truthy and a
string), then the snippet (if truthy and a string) with newlines collapsed.
The source applies no distinctness check between the two. -/
def answerBoxItems (ab : AnswerBox) : List Item :=
  (match ab.answer with
   | some a => if pyTruthy a && pyIsStr a then [⟨pyStr a, ab.link, "Answer Box"⟩] else []
   | none => []) ++
  (match ab.snippet with
   | some s => if pyTruthy s && pyIsStr s then
      [⟨collapseNl (pyStr s), ab.link, "Answer Box"⟩] else []
   | none => [])

/-- `kg.get('descriptionLink', kg.get('website', ''))`. -/
def kgLink (kg : KnowledgeGraph) : String :=
  match kg.descriptionLink with
  | some v => v
  | none =>
    match kg.website with
    | some w => w
    | none => ""

/-- Items contributed by the knowledge graph: type line, description,
one item per attribute. -/
def kgItems (kg : KnowledgeGraph) : List Item :=
  (match kg.type with
   | some t => if t = "" then [] else
      [⟨kg.title ++ ": " ++ t ++ ".", kgLink kg, "Knowledge Graph"⟩]
   | none => []) ++
  (match kg.description with
   | some d => if d = "" then [] else [⟨d, kgLink kg, kg.title⟩]
   | none => []) ++
  kg.attributes.map (fun av =>
    ⟨kg.title ++ " " ++ av.1 ++ ": " ++ av.2 ++ ".", kgLink kg, kg.title⟩)

/-- Items contributed by a single ranked result: one per present snippet,
plus one per attribute, tagged with the result's own title/link. -/
def resultItems (res : OrganicResult) : List Item :=
  (match res.snippet with
   | some s => [⟨s, res.link, res.title.getD "Search Result"⟩]
   | none => []) ++
  res.attributes.map (fun av =>
    ⟨av.1 ++ ": " ++ av.2 ++ ".", res.link, res.title.getD "Search Result"⟩)

/-- The slice `results[result_key][:self.k]` (empty when the key is absent). -/
def rankedResultsTaken (self : SerperAPI) (r : SerperResults) : List OrganicResult :=
  match r.sections.lookup (result_key_for_type self.search_type) with
  | some lst => lst.take self.k
  | none => []

/-- Concatenation of `resultItems` over a list of ranked results
(the `for result in results[result_key][:self.k]` loop). -/
def listItems : List OrganicResult → List Item
  | [] => []
  | res :: rest => resultItems res ++ listItems rest

/-- All items from the ranked-results section. -/
def SerperAPI.rankedItems (self : SerperAPI) (r : SerperResults) : List Item :=
  listItems (rankedResultsTaken self r)

/-- All items produced by the extraction rules, before the empty-result
placeholder check: answer box, then knowledge graph, then ranked results. -/
def SerperAPI.rawItems (self : SerperAPI) (r : SerperResults) : List Item :=
  (match r.answerBox with
   | some ab => answerBoxItems ab
   | none => []) ++
  (match r.knowledgeGraph with
   | some kg => kgItems kg
   | none => []) ++
  self.rankedItems r

/-- The placeholder item emitted when extraction produces nothing. -/
def noResultItem : Item := ⟨NO_RESULT_MSG, "", "No Result"⟩

/-- `SerperAPI._parse_snippets_with_links`. -/
def SerperAPI._parse_snippets_with_links (self : SerperAPI) (r : SerperResults) :
    List Item :=
  let items := self.rawItems r
  if items = [] then [noResultItem] else items

/-- One formatted entry of `_parse_results`:
`f"{snippet} [Source: {link}]"` when the link is truthy, else the snippet. -/
def fmtItem (item : Item) : String :=
  if item.link = "" then item.snippet
  else item.snippet ++ " [Source: " ++ item.link ++ "]"

/-- `' '.join(formatted)`. -/
def joinSpace : List String → String
  | [] => ""
  | [s] => s
  | s :: s2 :: rest => s ++ " " ++ joinSpace (s2 :: rest)

/-- `SerperAPI._parse_results`. -/
def SerperAPI._parse_results (self : SerperAPI) (r : SerperResults) : String :=
  joinSpace ((self._parse_snippets_with_links r).map fmtItem)

/-- The serialization rule as worded in the spec: concatenate each item's
snippet, immediately append `" [Source: <url>]"` after any item carrying a
link, join with single spaces. -/
def serializeSpec (items : List Item) : String :=
  joinSpace (items.map (fun item =>
    item.snippet ++ (if item.link = "" then "" else " [Source: " ++ item.link ++ "]")))

/-! ## The retry loop of `_google_serper_api_results`

One attempt of the `while` loop either raises an exception (network error or
timeout), raises an `AssertionError`, or produces a `requests.Response` with
a status code and (eventually) a JSON body.  A `requests.Response` object is
*falsy* exactly when its status code is at least 400 (`Response.__bool__` is
`Response.ok`).  The single `random.uniform(1, 3)` draw is threaded in as a
rational parameter `rq`; sleeping is modelled by logging the delay. -/

/-- The result of one `requests.post` attempt, as seen by the `try` block. -/
inductive Outcome where
  | exc
  | assertExc
  | resp (status : Nat) (body : SerperResults)

/-- Python truthiness of the `response` variable (`None` is falsy; a
`requests.Response` is truthy iff `status_code < 400`). -/
def respTruthy : Option (Nat × SerperResults) → Bool
  | none => false
  | some (st, _) => st < 400

/-- `sleep_time = min(sleep_time * 2, 10); sleep_time = random.uniform(1, 3)
if not sleep_time else sleep_time`. -/
def nextSleep (cur rq : ℚ) : ℚ :=
  let d := min (cur * 2) 10
  if d = 0 then rq else d

/-- State of the retry loop: the `response`, `num_fails` and `sleep_time`
variables, plus the index of the next attempted outcome and the log of
delays slept so far. -/
structure LoopSt where
  response : Option (Nat × SerperResults)
  num_fails : Nat
  sleep_time : ℚ
  attempt : Nat
  slept : List ℚ
deriving DecidableEq

/-- How `_google_serper_api_results` terminates: the parsed body, a re-raised
`AssertionError`, the terminal `ValueError('Failed to get result ...')`, or
an HTTP error from `response.raise_for_status()`. -/
inductive FetchRes where
  | ok (body : SerperResults)
  | assertErr
  | valueErr
  | statusErr
deriving DecidableEq

/-- The code after the `while` loop: `if not response: raise ValueError(...)`,
then `response.raise_for_status()` (raises for 4xx/5xx), then
`response.json()`. -/
def finishLoop (st : LoopSt) : FetchRes :=
  match st.response with
  | none => .valueErr
  | some (s, b) => if 400 ≤ s ∧ s < 600 then .statusErr else .ok b

/-- The initial `response, num_fails, sleep_time = None, 0, 0`. -/
def initSt : LoopSt := ⟨none, 0, 0, 0, []⟩

/-- The `while not response and num_fails < max_retries` loop, fuelled.
`none` means the fuel ran out with the loop still running: if
`fetchGo o rq mr fuel initSt = none` holds for every `fuel`, the concrete
loop never terminates on outcome stream `o`.  Note that only the `except
Exception` branch increments `num_fails` and sleeps; a delivered response is
stored and the loop condition re-tested. -/
def fetchGo (o : Nat → Outcome) (rq : ℚ) (mr : Nat) :
    Nat → LoopSt → Option (FetchRes × LoopSt)
  | 0, st =>
    if respTruthy st.response = false ∧ st.num_fails < mr then none
    else some (finishLoop st, st)
  | fuel + 1, st =>
    if respTruthy st.response = false ∧ st.num_fails < mr then
      match o st.attempt with
      | .assertExc => some (.assertErr, { st with attempt := st.attempt + 1 })
      | .resp s b =>
        fetchGo o rq mr fuel { st with response := some (s, b), attempt := st.attempt + 1 }
      | .exc =>
        let d := nextSleep st.sleep_time rq
        fetchGo o rq mr fuel
          ⟨none, st.num_fails + 1, d, st.attempt + 1, st.slept ++ [d]⟩
    else some (finishLoop st, st)

/-- Errors surfacing from `SerperAPI.run`. -/
inductive RunErr where
  | assertionError
  | providerFailure
  | httpError
deriving DecidableEq

/-- `SerperAPI.run`: `assert self.serper_api_key` (an empty key is falsy and
raises before any request), then `_google_serper_api_results` with
`max_retries = 3`, then `_parse_results`. -/
def SerperAPI.run (self : SerperAPI) (o : Nat → Outcome) (rq : ℚ) (fuel : Nat) :
    Option (Except RunErr String) :=
  if self.serper_api_key = "" then some (.error .assertionError)
  else
    match fetchGo o rq 3 fuel initSt with
    | none => none
    | some (.ok body, _) => some (.ok (self._parse_results body))
    | some (.assertErr, _) => some (.error .assertionError)
    | some (.valueErr, _) => some (.error .providerFailure)
    | some (.statusErr, _) => some (.error .httpError)

/-! ## The verification orchestrator

Modelled from the spec: `verify_atomic_claim` (file
`eval/fire/verify_atomic_claim.py`) is imported by `test_gemini.py`,
`app.py` and `run.py` but its implementation is not part of the sources;
the orchestrator below follows spec section 4.1 (state machine, iteration
budget, one corrective re-prompt, failure conversion to a null verdict with
partial batches/usage). -/

/-- Token usage counters. -/
structure Usage where
  input_tokens : Nat := 0
  output_tokens : Nat := 0
deriving DecidableEq, Repr

/-- Component-wise accumulation of usage. -/
def addUsage (a b : Usage) : Usage :=
  ⟨a.input_tokens + b.input_tokens, a.output_tokens + b.output_tokens⟩

/-- A final verdict: the TRUE/FALSE answer token with the full reply text. -/
structure Verdict where
  answer : String
  response : String
deriving DecidableEq, Repr

/-- One search batch: the query and its serialized evidence text. -/
structure SearchBatch where
  query : String
  result : String
deriving DecidableEq, Repr

/-- The parsed LLM decision grammar: a search directive, a final verdict, or
an unparseable reply. -/
inductive Decision where
  | search (q : String)
  | finalize (answer full : String)
  | unparseable

/-- Modelled from the spec: the orchestrator loop of `verify_atomic_claim`.
`llm i` is the decision and usage of the `i`-th LLM call; `searcher q` is
`none` when the search provider exhausts its retries.  At budget exhaustion
one forced finalization call is issued; an unparseable reply gets one
corrective re-prompt; every failure returns a `none` verdict with the
batches and usage accumulated so far. -/
def verifyGo (llm : Nat → Decision × Usage) (searcher : String → Option SearchBatch) :
    Nat → Nat → List SearchBatch → Usage → Option Verdict × List SearchBatch × Usage
  | 0, i, bs, u =>
    match llm i with
    | (.finalize a full, du) => (some ⟨a, full⟩, bs, addUsage u du)
    | (_, du) => (none, bs, addUsage u du)
  | fuel + 1, i, bs, u =>
    match llm i with
    | (.finalize a full, du) => (some ⟨a, full⟩, bs, addUsage u du)
    | (.search q, du) =>
      match searcher q with
      | some b => verifyGo llm searcher fuel (i + 1) (bs ++ [b]) (addUsage u du)
      | none => (none, bs, addUsage u du)
    | (.unparseable, du) =>
      match llm (i + 1) with
      | (.finalize a full, du2) => (some ⟨a, full⟩, bs, addUsage (addUsage u du) du2)
      | (.search q, du2) =>
        match searcher q with
        | some b => verifyGo llm searcher fuel (i + 2) (bs ++ [b]) (addUsage (addUsage u du) du2)
        | none => (none, bs, addUsage (addUsage u du) du2)
      | (.unparseable, du2) => (none, bs, addUsage (addUsage u du) du2)

/-- Modelled from the spec: the public contract
`verify(claim, model_config) -> (Verdict | null, Search Batches, Usage)`;
the claim only seeds the initial transcript, which the `llm` stub already
determines. -/
def verify_atomic_claim (_claim : String) (llm : Nat → Decision × Usage)
    (searcher : String → Option SearchBatch) (budget : Nat := 5) :
    Option Verdict × List SearchBatch × Usage :=
  verifyGo llm searcher budget 0 [] ⟨0, 0⟩

/-! ## The citation micro-format

`app.py` recovers sources with `re.findall(r'\[Source: (https?://[^\]]+)\]',
text)` and strips them with `re.sub` of the same pattern.  Both are modelled
by a single left-to-right scanner over the character list: at each position
try to match the bracket pattern; on a match, emit the captured URL, drop
the matched text and resume after it, otherwise keep the character and
advance by one. -/

/-- Character lists, the carrier of the scanner. -/
abbrev Chars := List Char

/-- The literal `"[Source: "`. -/
def srcMark : Chars := ['[', 'S', 'o', 'u', 'r', 'c', 'e', ':', ' ']

/-- The literal `"[Source:"` (the space-free prefix of `srcMark`; prose is
clean when it does not contain this substring). -/
def srcMark8 : Chars := ['[', 'S', 'o', 'u', 'r', 'c', 'e', ':']

/-- Drop a literal pattern from the front, or fail. -/
def dropPre : Chars → Chars → Option Chars
  | [], s => some s
  | _ :: _, [] => none
  | p :: ps, c :: cs => if p = c then dropPre ps cs else none

/-- Split at the first `']'`: the characters before it and the rest after it
(the regex piece `[^\]]*\]`). -/
def takeUntilRB : Chars → Option (Chars × Chars)
  | [] => none
  | c :: cs =>
    if c = ']' then some ([], cs)
    else
      match takeUntilRB cs with
      | some (u, r) => some (c :: u, r)
      | none => none

/-- The regex group `https?://[^\]]+`: the captured text starts with
`http://` or `https://` and has at least one character after the scheme
(the group's `+` requires a non-empty remainder). -/
def httpOk (u : Chars) : Bool :=
  (List.isPrefixOf ['h', 't', 't', 'p', ':', '/', '/'] u && decide (7 < u.length)) ||
  (List.isPrefixOf ['h', 't', 't', 'p', 's', ':', '/', '/'] u && decide (8 < u.length))

/-- Match `\[Source: (https?://[^\]]+)\]` at the head of `s`, returning the
captured URL and the text after the closing bracket. -/
def matchMarker (s : Chars) : Option (Chars × Chars) :=
  match dropPre srcMark s with
  | none => none
  | some w =>
    match takeUntilRB w with
    | none => none
    | some (u, r) => if httpOk u then some (u, r) else none

/-- One fuelled pass computing simultaneously `re.findall` (first component:
the captured URLs, leftmost non-overlapping) and `re.sub(..., '')` (second
component: the text with every match deleted). -/
def stripAux : Nat → Chars → List Chars × Chars
  | 0, s => ([], s)
  | _ + 1, [] => ([], [])
  | n + 1, c :: cs =>
    match matchMarker (c :: cs) with
    | some (u, r) => (u :: (stripAux n r).1, (stripAux n r).2)
    | none => ((stripAux n cs).1, c :: (stripAux n cs).2)

/-- The scanner with enough fuel for its input. -/
def stripPair (s : Chars) : List Chars × Chars := stripAux s.length s

/-- `re.findall(source_pattern, s)`. -/
def scanSrc (s : Chars) : List Chars := (stripPair s).1

/-- `re.sub(source_pattern, '', s)`. -/
def removeSrc (s : Chars) : Chars := (stripPair s).2

/-- `fmtItem` at the character level, for an item given as a
(snippet, link) pair. -/
def fmtItemL (it : Chars × Chars) : Chars :=
  if it.2 = [] then it.1 else it.1 ++ (' ' :: (srcMark ++ (it.2 ++ [']'])))

/-- `' '.join` of formatted items at the character level. -/
def serializeItemsL : List (Chars × Chars) → Chars
  | [] => []
  | [it] => fmtItemL it
  | it :: it2 :: rest => fmtItemL it ++ (' ' :: serializeItemsL (it2 :: rest))

/-- The non-empty links of an item list, in order. -/
def linksL : List (Chars × Chars) → List Chars
  | [] => []
  | it :: rest => (if it.2 = [] then [] else [it.2]) ++ linksL rest

/-- What deleting every marker from the serialized text leaves: each snippet
(followed by the residual space of its marker, when it had one), joined by
the separator spaces. -/
def cleanL : List (Chars × Chars) → Chars
  | [] => []
  | [it] => if it.2 = [] then it.1 else it.1 ++ [' ']
  | it :: it2 :: rest =>
    (if it.2 = [] then it.1 else it.1 ++ [' ']) ++ (' ' :: cleanL (it2 :: rest))

/-- View an `Item` as a (snippet, link) character pair. -/
def itemChars (it : Item) : Chars × Chars := (it.snippet.data, it.link.data)

/-- The non-empty source links of a parsed batch, as character lists. -/
def batchLinks (api : SerperAPI) (r : SerperResults) : List Chars :=
  linksL ((api._parse_snippets_with_links r).map itemChars)

/-! ## Concrete inputs used by scenarios, counterexamples, and witnesses -/

/-- A `SerperAPI` with the default configuration (`k = 1`, web search). -/
def apiS : SerperAPI := ⟨"key", "us", "en", 1, none, "search"⟩

/-- Spec scenario C: `answerBox: {answer: "Paris", link: "https://x"}` and no
ranked results. -/
def rParis : SerperResults := ⟨some ⟨some (.pstr "Paris"), none, "https://x"⟩, none, []⟩

/-- An answer box whose snippet is textually identical to its answer. -/
def abSame : AnswerBox := ⟨some (.pstr "Paris"), some (.pstr "Paris"), ""⟩

/-- A response carrying only `abSame`. -/
def rSame : SerperResults := ⟨some abSame, none, []⟩

/-- A ranked result with one snippet and one attribute. -/
def resAttr : OrganicResult := ⟨some "T", "http://l", some "S", [("born", "1900")]⟩

/-- A response whose only content is one ranked result with an attribute. -/
def rAttr : SerperResults := ⟨none, none, [("organic", [resAttr])]⟩

/-- A response with no extractable content at all. -/
def rEmpty : SerperResults := ⟨none, none, []⟩

/-- A two-item scenario: an answer box with a link plus one linked ranked
result. -/
def rTwo : SerperResults :=
  ⟨some ⟨some (.pstr "Paris"), none, "https://x"⟩, none,
   [("organic", [⟨some "T", "http://a.com/b", some "Snippet one", []⟩])]⟩

/-- An outcome stream on which every attempt yields an HTTP 500 response. -/
def badOutcomes : Nat → Outcome := fun _ => .resp 500 ⟨none, none, []⟩

/-- An outcome stream on which every attempt raises (network error/timeout). -/
def allExcOutcomes : Nat → Outcome := fun _ => .exc

/-- An outcome stream on which every attempt raises `AssertionError`. -/
def assertOutcomes : Nat → Outcome := fun _ => .assertExc

/-- A `SerperAPI` configured with an empty (falsy) API key. -/
def apiNoKey : SerperAPI := ⟨"", "us", "en", 1, none, "search"⟩

/-- An LLM stub whose replies are never parseable. -/
def llmUnparse : Nat → Decision × Usage := fun _ => (.unparseable, ⟨10, 5⟩)

/-- An LLM stub that always asks for another search. -/
def llmSearch : Nat → Decision × Usage := fun _ => (.search "q", ⟨10, 5⟩)

/-- A search stub whose provider always exhausts its retries. -/
def searcherFail : String → Option SearchBatch := fun _ => none

/-- Total number of attributes listed by a sequence of ranked results. -/
def listAttrs : List OrganicResult → Nat
  | [] => 0
  | res :: rest => res.attributes.length + listAttrs rest

/-- The three backoff delays slept when every attempt raises: the uniform
draw, then its double, then the double of that capped at 10. -/
def sleptAllExc (rq : ℚ) : List ℚ :=
  [nextSleep 0 rq, nextSleep (nextSleep 0 rq) rq,
   nextSleep (nextSleep (nextSleep 0 rq) rq) rq]

/-- The loop state after three failed attempts on an all-exception stream. -/
def stAllExc (rq : ℚ) : LoopSt :=
  ⟨none, 3, nextSleep (nextSleep (nextSleep 0 rq) rq) rq, 3, sleptAllExc rq⟩

/-! ## Scanner lemmas -/

lemma dropPre_some_iff : ∀ (p s w : Chars), dropPre p s = some w ↔ s = p ++ w := by
  intro p
  induction p with
  | nil =>
    intro s w
    simp [dropPre]
  | cons a ps ih =>
    intro s w
    cases s with
    | nil => simp [dropPre]
    | cons c cs =>
      simp only [dropPre]
      by_cases h : a = c
      · subst h
        rw [if_pos rfl, ih]
        simp
      · rw [if_neg h]
        constructor
        · intro hh
          exact absurd hh (by simp)
        · intro hh
          injection hh with h1 h2
          exact absurd h1.symm h

lemma takeUntilRB_some : ∀ (s u r : Chars),
    takeUntilRB s = some (u, r) → s = u ++ ']' :: r ∧ ']' ∉ u := by
  intro s
  induction s with
  | nil => intro u r h; simp [takeUntilRB] at h
  | cons c cs ih =>
    intro u r h
    by_cases hc : c = ']'
    · subst hc
      simp [takeUntilRB] at h
      obtain ⟨hu, hr⟩ := h
      subst hu; subst hr
      simp
    · rw [takeUntilRB, if_neg hc] at h
      cases hm : takeUntilRB cs with
      | none => rw [hm] at h; exact absurd h (by simp)
      | some ur =>
        obtain ⟨u', r'⟩ := ur
        rw [hm] at h
        simp at h
        obtain ⟨hu, hr⟩ := h
        obtain ⟨hs, hmem⟩ := ih u' r' hm
        subst hu; subst hr; subst hs
        refine ⟨by simp, ?_⟩
        intro hmem2
        rcases List.mem_cons.1 hmem2 with h1 | h1
        · exact hc h1.symm
        · exact hmem h1

lemma takeUntilRB_mk : ∀ (u r : Chars), ']' ∉ u →
    takeUntilRB (u ++ ']' :: r) = some (u, r) := by
  intro u
  induction u with
  | nil => intro r _; simp [takeUntilRB]
  | cons c cs ih =>
    intro r hmem
    have hc : c ≠ ']' := by
      intro h; exact hmem (h ▸ List.mem_cons_self c cs)
    have hmem' : ']' ∉ cs := fun h => hmem (List.mem_cons_of_mem c h)
    simp only [List.cons_append, takeUntilRB, if_neg hc, List.append_eq, ih r hmem']

lemma matchMarker_some {s u r : Chars} (h : matchMarker s = some (u, r)) :
    s = srcMark ++ (u ++ ']' :: r) ∧ ']' ∉ u ∧ httpOk u = true := by
  unfold matchMarker at h
  split at h
  · exact absurd h (by simp)
  next w hd =>
    split at h
    · exact absurd h (by simp)
    next u' r' ht =>
      split at h
      next hok =>
        simp at h
        obtain ⟨rfl, rfl⟩ := h
        obtain ⟨hw, hmem⟩ := takeUntilRB_some w u' r' ht
        refine ⟨?_, hmem, hok⟩
        rw [(dropPre_some_iff srcMark s w).1 hd, hw]
      next => exact absurd h (by simp)

lemma matchMarker_mk {u : Chars} (r : Chars) (hmem : ']' ∉ u) (hok : httpOk u = true) :
    matchMarker (srcMark ++ (u ++ ']' :: r)) = some (u, r) := by
  have h1 : dropPre srcMark (srcMark ++ (u ++ ']' :: r)) = some (u ++ ']' :: r) :=
    (dropPre_some_iff _ _ _).2 rfl
  simp [matchMarker, h1, takeUntilRB_mk u r hmem, hok]

lemma matchMarker_length {s u r : Chars} (h : matchMarker s = some (u, r)) :
    r.length < s.length := by
  obtain ⟨hs, -, -⟩ := matchMarker_some h
  subst hs
  simp [srcMark]
  omega

lemma stripAux_fuel : ∀ (n m : Nat) (s : Chars), s.length ≤ n → s.length ≤ m →
    stripAux n s = stripAux m s := by
  intro n
  induction n with
  | zero =>
    intro m s hn _
    have : s = [] := List.eq_nil_of_length_eq_zero (Nat.le_zero.1 hn)
    subst this
    cases m <;> rfl
  | succ n ih =>
    intro m s hn hm
    cases s with
    | nil => cases m <;> rfl
    | cons c cs =>
      cases m with
      | zero => simp at hm
      | succ m' =>
        cases hmm : matchMarker (c :: cs) with
        | none =>
          have hlen : cs.length ≤ n := by simp at hn; omega
          have hlen' : cs.length ≤ m' := by simp at hm; omega
          simp only [stripAux, hmm]
          rw [ih m' cs hlen hlen']
        | some ur =>
          obtain ⟨u, r⟩ := ur
          have hr := matchMarker_length hmm
          have hlen : r.length ≤ n := by simp at hr hn; omega
          have hlen' : r.length ≤ m' := by simp at hr hm; omega
          simp only [stripAux, hmm]
          rw [ih m' r hlen hlen']

lemma stripPair_cons (c : Char) (cs : Chars) :
    stripPair (c :: cs) =
      match matchMarker (c :: cs) with
      | some (u, r) => (u :: (stripPair r).1, (stripPair r).2)
      | none => ((stripPair cs).1, c :: (stripPair cs).2) := by
  cases hmm : matchMarker (c :: cs) with
  | none => simp only [stripPair, List.length_cons, stripAux, hmm]
  | some ur =>
    obtain ⟨u, r⟩ := ur
    have hr := matchMarker_length hmm
    have hle : r.length ≤ cs.length := by simp at hr; omega
    simp only [stripPair, List.length_cons, stripAux, hmm]
    rw [stripAux_fuel cs.length r.length r hle (le_refl _)]

lemma onlyLastSpace (y z : Chars) (h : y ++ ' ' :: z = srcMark) :
    y = srcMark8 ∧ z = [] := by
  have hy : y ∈ srcMark.inits := (List.mem_inits _ _).2 ⟨' ' :: z, h⟩
  have hz : z ∈ srcMark.tails := (List.mem_tails _ _).2 ⟨y ++ [' '], by
    rw [List.append_assoc]; simpa using h⟩
  revert h
  exact (by decide :
    ∀ y' ∈ srcMark.inits, ∀ z' ∈ srcMark.tails,
      y' ++ ' ' :: z' = srcMark → y' = srcMark8 ∧ z' = []) y hy z hz

lemma srcMark8_pre_srcMark : srcMark8 <+: srcMark := ⟨[' '], rfl⟩

lemma noMatch_clean (s t : Chars) (hs : ¬ srcMark8 <:+: s)
    (ht : t = [] ∨ ∃ t', t = ' ' :: t') : matchMarker (s ++ t) = none := by
  cases hmm : matchMarker (s ++ t) with
  | none => rfl
  | some ur =>
    exfalso
    obtain ⟨u, r⟩ := ur
    obtain ⟨hdec, -, -⟩ := matchMarker_some hmm
    rcases List.append_eq_append_iff.1 hdec with ⟨a, hc, hb⟩ | ⟨a, hc, hb⟩
    · cases a with
      | nil =>
        rw [List.append_nil] at hc
        exact hs (hc ▸ srcMark8_pre_srcMark.isInfix)
      | cons x a' =>
        rcases ht with ht | ⟨t', ht⟩
        · rw [ht] at hb; simp at hb
        · rw [ht] at hb
          have hx : x = ' ' := by
            have := congrArg (List.head?) hb
            simpa using this.symm
          subst hx
          obtain ⟨h8, -⟩ := onlyLastSpace s a' hc.symm
          exact hs (h8 ▸ List.infix_refl _)
    · have : srcMark8 <+: s := by
        rw [hc]
        exact srcMark8_pre_srcMark.trans (List.prefix_append _ _)
      exact hs this.isInfix

lemma stripPair_none (c : Char) (cs : Chars) (hmm : matchMarker (c :: cs) = none) :
    stripPair (c :: cs) = ((stripPair cs).1, c :: (stripPair cs).2) := by
  rw [stripPair_cons, hmm]

lemma stripPair_match (s u r : Chars) (hmm : matchMarker s = some (u, r)) :
    stripPair s = (u :: (stripPair r).1, (stripPair r).2) := by
  cases s with
  | nil => simp [matchMarker, dropPre, srcMark] at hmm
  | cons c cs => rw [stripPair_cons, hmm]

lemma stripPair_space (s : Chars) :
    stripPair (' ' :: s) = ((stripPair s).1, ' ' :: (stripPair s).2) := by
  apply stripPair_none
  rfl

lemma stripPair_marker (u r : Chars) (hmem : ']' ∉ u) (hok : httpOk u = true) :
    stripPair (srcMark ++ (u ++ ']' :: r)) = (u :: (stripPair r).1, (stripPair r).2) :=
  stripPair_match _ u r (matchMarker_mk r hmem hok)

lemma stripPair_clean_chunk : ∀ (snip t : Chars), ¬ srcMark8 <:+: snip →
    (t = [] ∨ ∃ t', t = ' ' :: t') →
    stripPair (snip ++ t) = ((stripPair t).1, snip ++ (stripPair t).2) := by
  intro snip
  induction snip with
  | nil => intro t _ _; simp
  | cons c rest ih =>
    intro t hs ht
    have hrest : ¬ srcMark8 <:+: rest := fun hinf => hs (List.infix_cons hinf)
    have hnm : matchMarker ((c :: rest) ++ t) = none := noMatch_clean _ _ hs ht
    rw [List.cons_append] at hnm ⊢
    rw [stripPair_none c (rest ++ t) hnm, ih t hrest ht]
    simp

lemma stripPair_fmt_chunk (it : Chars × Chars) (t : Chars)
    (hc : ¬ srcMark8 <:+: it.1)
    (hl : it.2 ≠ [] → ']' ∉ it.2 ∧ httpOk it.2 = true)
    (ht : t = [] ∨ ∃ t', t = ' ' :: t') :
    stripPair (fmtItemL it ++ t) =
      ((if it.2 = [] then [] else [it.2]) ++ (stripPair t).1,
       (if it.2 = [] then it.1 else it.1 ++ [' ']) ++ (stripPair t).2) := by
  by_cases h2 : it.2 = []
  · rw [fmtItemL, if_pos h2, if_pos h2, if_pos h2,
      stripPair_clean_chunk it.1 t hc ht]
    simp
  · obtain ⟨hmem, hok⟩ := hl h2
    rw [fmtItemL, if_neg h2, if_neg h2, if_neg h2]
    have hshape : (it.1 ++ (' ' :: (srcMark ++ (it.2 ++ [']'])))) ++ t =
        it.1 ++ (' ' :: (srcMark ++ (it.2 ++ ']' :: t))) := by
      simp
    rw [hshape, stripPair_clean_chunk it.1 _ hc (Or.inr ⟨_, rfl⟩),
      stripPair_space, stripPair_marker it.2 t hmem hok]
    simp

lemma strip_serialize : ∀ (items : List (Chars × Chars)) (t : Chars),
    (∀ it ∈ items, ¬ srcMark8 <:+: it.1) →
    (∀ it ∈ items, it.2 ≠ [] → ']' ∉ it.2 ∧ httpOk it.2 = true) →
    (t = [] ∨ ∃ t', t = ' ' :: t') →
    stripPair (serializeItemsL items ++ t) =
      (linksL items ++ (stripPair t).1, cleanL items ++ (stripPair t).2) := by
  intro items
  induction items with
  | nil => intro t _ _ _; simp [serializeItemsL, linksL, cleanL]
  | cons it rest ih =>
    intro t hc hl ht
    have hcit : ¬ srcMark8 <:+: it.1 := hc it (List.mem_cons_self _ _)
    have hlit : it.2 ≠ [] → ']' ∉ it.2 ∧ httpOk it.2 = true :=
      hl it (List.mem_cons_self _ _)
    cases rest with
    | nil =>
      rw [show serializeItemsL [it] = fmtItemL it from rfl,
        stripPair_fmt_chunk it t hcit hlit ht]
      rw [show linksL [it] = (if it.2 = [] then [] else [it.2]) ++ [] from by
        simp [linksL], show cleanL [it] = (if it.2 = [] then it.1 else it.1 ++ [' ']) from rfl]
      simp
    | cons it2 rest' =>
      have hcr : ∀ x ∈ it2 :: rest', ¬ srcMark8 <:+: x.1 :=
        fun x hx => hc x (List.mem_cons_of_mem _ hx)
      have hlr : ∀ x ∈ it2 :: rest', x.2 ≠ [] → ']' ∉ x.2 ∧ httpOk x.2 = true :=
        fun x hx => hl x (List.mem_cons_of_mem _ hx)
      have hshape : serializeItemsL (it :: it2 :: rest') ++ t =
          fmtItemL it ++ (' ' :: (serializeItemsL (it2 :: rest') ++ t)) := by
        rw [show serializeItemsL (it :: it2 :: rest') =
          fmtItemL it ++ (' ' :: serializeItemsL (it2 :: rest')) from rfl]
        simp
      rw [hshape, stripPair_fmt_chunk it _ hcit hlit (Or.inr ⟨_, rfl⟩),
        stripPair_space, ih t hcr hlr ht]
      rw [show linksL (it :: it2 :: rest') =
        (if it.2 = [] then [] else [it.2]) ++ linksL (it2 :: rest') from rfl]
      rw [show cleanL (it :: it2 :: rest') =
        (if it.2 = [] then it.1 else it.1 ++ [' ']) ++ (' ' :: cleanL (it2 :: rest')) from rfl]
      simp

lemma strip_cleanL : ∀ (items : List (Chars × Chars)) (t : Chars),
    (∀ it ∈ items, ¬ srcMark8 <:+: it.1) →
    (t = [] ∨ ∃ t', t = ' ' :: t') →
    (stripPair (cleanL items ++ t)).1 = (stripPair t).1 := by
  intro items
  induction items with
  | nil => intro t _ _; simp [cleanL]
  | cons it rest ih =>
    intro t hc ht
    have hcit : ¬ srcMark8 <:+: it.1 := hc it (List.mem_cons_self _ _)
    cases rest with
    | nil =>
      by_cases h2 : it.2 = []
      · rw [show cleanL [it] = it.1 from by rw [cleanL, if_pos h2],
          stripPair_clean_chunk it.1 t hcit ht]
      · rw [show cleanL [it] = it.1 ++ [' '] from by rw [cleanL, if_neg h2]]
        have hshape : (it.1 ++ [' ']) ++ t = it.1 ++ (' ' :: t) := by simp
        rw [hshape, stripPair_clean_chunk it.1 _ hcit (Or.inr ⟨_, rfl⟩)]
        simp [stripPair_space]
    | cons it2 rest' =>
      have hcr : ∀ x ∈ it2 :: rest', ¬ srcMark8 <:+: x.1 :=
        fun x hx => hc x (List.mem_cons_of_mem _ hx)
      have hrec := ih t hcr ht
      by_cases h2 : it.2 = []
      · have hshape : cleanL (it :: it2 :: rest') ++ t =
            it.1 ++ (' ' :: (cleanL (it2 :: rest') ++ t)) := by
          rw [show cleanL (it :: it2 :: rest') =
            (if it.2 = [] then it.1 else it.1 ++ [' ']) ++ (' ' :: cleanL (it2 :: rest'))
            from rfl, if_pos h2]
          simp
        rw [hshape, stripPair_clean_chunk it.1 _ hcit (Or.inr ⟨_, rfl⟩)]
        simp [stripPair_space, hrec]
      · have hshape : cleanL (it :: it2 :: rest') ++ t =
            it.1 ++ (' ' :: ' ' :: (cleanL (it2 :: rest') ++ t)) := by
          rw [show cleanL (it :: it2 :: rest') =
            (if it.2 = [] then it.1 else it.1 ++ [' ']) ++ (' ' :: cleanL (it2 :: rest'))
            from rfl, if_neg h2]
          simp
        rw [hshape, stripPair_clean_chunk it.1 _ hcit (Or.inr ⟨_, rfl⟩)]
        simp [stripPair_space, hrec]

lemma data_empty_iff (s : String) : s.data = [] ↔ s = "" := by
  constructor
  · intro h; exact String.ext h
  · intro h; rw [h]

lemma fmtItem_data (it : Item) : (fmtItem it).data = fmtItemL (itemChars it) := by
  by_cases h : it.link = ""
  · have h2 : (itemChars it).2 = [] := by
      simp [itemChars, h]
    rw [fmtItem, if_pos h, fmtItemL, if_pos h2]
    rfl
  · have h2 : (itemChars it).2 ≠ [] := by
      simp [itemChars]
      intro hc
      exact h (String.ext hc)
    rw [fmtItem, if_neg h, fmtItemL, if_neg h2]
    show (it.snippet ++ " [Source: " ++ it.link ++ "]").data = _
    simp [String.data_append, itemChars, srcMark]

lemma join_data : ∀ (items : List Item),
    (joinSpace (items.map fmtItem)).data = serializeItemsL (items.map itemChars) := by
  intro items
  induction items with
  | nil => rfl
  | cons it rest ih =>
    cases rest with
    | nil =>
      show (joinSpace [fmtItem it]).data = serializeItemsL [itemChars it]
      rw [show joinSpace [fmtItem it] = fmtItem it from rfl,
        show serializeItemsL [itemChars it] = fmtItemL (itemChars it) from rfl]
      exact fmtItem_data it
    | cons it2 rest' =>
      show (joinSpace (fmtItem it :: fmtItem it2 :: List.map fmtItem rest')).data = _
      rw [show joinSpace (fmtItem it :: fmtItem it2 :: List.map fmtItem rest') =
        fmtItem it ++ " " ++ joinSpace (fmtItem it2 :: List.map fmtItem rest') from rfl]
      show _ = serializeItemsL (itemChars it :: itemChars it2 :: List.map itemChars rest')
      rw [show serializeItemsL (itemChars it :: itemChars it2 :: List.map itemChars rest') =
        fmtItemL (itemChars it) ++
          (' ' :: serializeItemsL (itemChars it2 :: List.map itemChars rest')) from rfl]
      simp only [String.data_append]
      rw [fmtItem_data it]
      have hr : (joinSpace (fmtItem it2 :: List.map fmtItem rest')).data =
          serializeItemsL (itemChars it2 :: List.map itemChars rest') := by
        have := ih
        simpa using this
      simp [hr]

lemma parse_results_data (api : SerperAPI) (r : SerperResults) :
    (api._parse_results r).data =
      serializeItemsL ((api._parse_snippets_with_links r).map itemChars) :=
  join_data _

/-! ## Retry-loop lemmas -/

lemma fetchGo_done (o : Nat → Outcome) (rq : ℚ) (mr fuel : Nat) (st : LoopSt)
    (h : ¬ (respTruthy st.response = false ∧ st.num_fails < mr)) :
    fetchGo o rq mr fuel st = some (finishLoop st, st) := by
  cases fuel with
  | zero => rw [fetchGo, if_neg h]
  | succ n => rw [fetchGo, if_neg h]

lemma fetchGo_step (o : Nat → Outcome) (rq : ℚ) (mr fuel : Nat) (st : LoopSt)
    (h : respTruthy st.response = false ∧ st.num_fails < mr) :
    fetchGo o rq mr (fuel + 1) st =
      match o st.attempt with
      | .assertExc => some (.assertErr, { st with attempt := st.attempt + 1 })
      | .resp s b =>
        fetchGo o rq mr fuel { st with response := some (s, b), attempt := st.attempt + 1 }
      | .exc =>
        fetchGo o rq mr fuel
          ⟨none, st.num_fails + 1, nextSleep st.sleep_time rq, st.attempt + 1,
           st.slept ++ [nextSleep st.sleep_time rq]⟩ := by
  rw [fetchGo, if_pos h]

lemma fetchGo_http500 : ∀ (fuel : Nat) (st : LoopSt), respTruthy st.response = false →
    st.num_fails = 0 → fetchGo badOutcomes 2 3 fuel st = none := by
  intro fuel
  induction fuel with
  | zero =>
    intro st h1 h2
    rw [fetchGo, if_pos ⟨h1, by omega⟩]
  | succ n ih =>
    intro st h1 h2
    rw [fetchGo_step _ _ _ _ _ ⟨h1, by omega⟩]
    show fetchGo badOutcomes 2 3 n
      { st with response := some (500, ⟨none, none, []⟩), attempt := st.attempt + 1 } = none
    exact ih _ rfl h2

lemma fetchGo_allExc (rq : ℚ) : ∀ fuel : Nat,
    fetchGo allExcOutcomes rq 3 (fuel + 3) initSt = some (.valueErr, stAllExc rq) := by
  intro fuel
  have hdone : fetchGo allExcOutcomes rq 3 fuel (stAllExc rq) =
      some (.valueErr, stAllExc rq) := by
    rw [fetchGo_done]
    · rfl
    · rintro ⟨-, hlt⟩
      have h3 : (stAllExc rq).num_fails = 3 := rfl
      rw [h3] at hlt
      exact absurd hlt (by omega)
  rw [show fuel + 3 = (fuel + 2) + 1 from rfl,
    fetchGo_step allExcOutcomes rq 3 (fuel + 2) initSt ⟨rfl, by decide⟩]
  show fetchGo allExcOutcomes rq 3 (fuel + 2)
    ⟨none, 1, nextSleep 0 rq, 1, [nextSleep 0 rq]⟩ = some (.valueErr, stAllExc rq)
  rw [show fuel + 2 = (fuel + 1) + 1 from rfl,
    fetchGo_step allExcOutcomes rq 3 (fuel + 1)
      ⟨none, 1, nextSleep 0 rq, 1, [nextSleep 0 rq]⟩ ⟨rfl, by show (1 : Nat) < 3; omega⟩]
  show fetchGo allExcOutcomes rq 3 (fuel + 1)
    ⟨none, 2, nextSleep (nextSleep 0 rq) rq, 2,
     [nextSleep 0 rq, nextSleep (nextSleep 0 rq) rq]⟩ = some (.valueErr, stAllExc rq)
  rw [fetchGo_step allExcOutcomes rq 3 fuel
      ⟨none, 2, nextSleep (nextSleep 0 rq) rq, 2,
       [nextSleep 0 rq, nextSleep (nextSleep 0 rq) rq]⟩ ⟨rfl, by show (2 : Nat) < 3; omega⟩]
  show fetchGo allExcOutcomes rq 3 fuel
    ⟨none, 3, nextSleep (nextSleep (nextSleep 0 rq) rq) rq, 3,
     [nextSleep 0 rq, nextSleep (nextSleep 0 rq) rq,
      nextSleep (nextSleep (nextSleep 0 rq) rq) rq]⟩ = some (.valueErr, stAllExc rq)
  exact hdone

/-! ## Orchestrator lemmas -/

lemma verifyGo_extends : ∀ (llm : Nat → Decision × Usage)
    (searcher : String → Option SearchBatch) (fuel i : Nat)
    (bs : List SearchBatch) (u : Usage),
    bs <+: (verifyGo llm searcher fuel i bs u).2.1 ∧
    u.input_tokens ≤ (verifyGo llm searcher fuel i bs u).2.2.input_tokens ∧
    u.output_tokens ≤ (verifyGo llm searcher fuel i bs u).2.2.output_tokens := by
  intro llm searcher fuel
  induction fuel with
  | zero =>
    intro i bs u
    rcases h : llm i with ⟨d, du⟩
    cases d with
    | search q =>
      simp only [verifyGo, h]
      exact ⟨List.prefix_rfl, by simp only [addUsage]; omega, by simp only [addUsage]; omega⟩
    | finalize a full =>
      simp only [verifyGo, h]
      exact ⟨List.prefix_rfl, by simp only [addUsage]; omega, by simp only [addUsage]; omega⟩
    | unparseable =>
      simp only [verifyGo, h]
      exact ⟨List.prefix_rfl, by simp only [addUsage]; omega, by simp only [addUsage]; omega⟩
  | succ n ih =>
    intro i bs u
    rcases h : llm i with ⟨d, du⟩
    cases d with
    | finalize a full =>
      simp only [verifyGo, h]
      exact ⟨List.prefix_rfl, by simp only [addUsage]; omega, by simp only [addUsage]; omega⟩
    | search q =>
      cases hs : searcher q with
      | some b =>
        simp only [verifyGo, h, hs]
        have hrec := ih (i + 1) (bs ++ [b]) (addUsage u du)
        refine ⟨(List.prefix_append bs [b]).trans hrec.1, ?_, ?_⟩
        · exact le_trans (by simp only [addUsage]; omega) hrec.2.1
        · exact le_trans (by simp only [addUsage]; omega) hrec.2.2
      | none =>
        simp only [verifyGo, h, hs]
        exact ⟨List.prefix_rfl, by simp only [addUsage]; omega, by simp only [addUsage]; omega⟩
    | unparseable =>
      rcases h2 : llm (i + 1) with ⟨d2, du2⟩
      cases d2 with
      | finalize a full =>
        simp only [verifyGo, h, h2]
        exact ⟨List.prefix_rfl, by simp only [addUsage]; omega, by simp only [addUsage]; omega⟩
      | search q =>
        cases hs : searcher q with
        | some b =>
          simp only [verifyGo, h, h2, hs]
          have hrec := ih (i + 2) (bs ++ [b]) (addUsage (addUsage u du) du2)
          refine ⟨(List.prefix_append bs [b]).trans hrec.1, ?_, ?_⟩
          · exact le_trans (by simp only [addUsage]; omega) hrec.2.1
          · exact le_trans (by simp only [addUsage]; omega) hrec.2.2
        | none =>
          simp only [verifyGo, h, h2, hs]
          exact ⟨List.prefix_rfl, by simp only [addUsage]; omega, by simp only [addUsage]; omega⟩
      | unparseable =>
        simp only [verifyGo, h, h2]
        exact ⟨List.prefix_rfl, by simp only [addUsage]; omega, by simp only [addUsage]; omega⟩

/-! ## Parser lemmas -/

lemma listItems_length : ∀ l : List OrganicResult,
    (listItems l).length ≤ l.length + listAttrs l := by
  intro l
  induction l with
  | nil => simp [listItems, listAttrs]
  | cons res rest ih =>
    have hres : (resultItems res).length ≤ 1 + res.attributes.length := by
      cases h : res.snippet <;> simp [resultItems, h] <;> omega
    simp only [listItems, listAttrs, List.length_append, List.length_cons]
    omega

lemma fmtItem_spec (it : Item) :
    fmtItem it = it.snippet ++ (if it.link = "" then "" else " [Source: " ++ it.link ++ "]") := by
  by_cases h : it.link = ""
  · rw [fmtItem, if_pos h, if_pos h]
    simp
  · rw [fmtItem, if_neg h, if_neg h]
    simp [String.append_assoc]

/-! ## Claim theorems -/

/-- Claim C1, behaviour at the failing input.  The claim says every failed
attempt — including a non-success HTTP status — is retried at most
`max_retries` times and the loop never runs unboundedly.  The code violates
this: a `requests.Response` with status `≥ 400` is falsy, so the `while not
response` condition holds, yet `num_fails` is only incremented in the
`except` branch; a backend that always answers HTTP 500 is re-queried
forever.  First conjunct: on the all-500 stream the loop is still running
after any amount of fuel.  Second and third conjuncts: on an all-exception
stream (the behaviour the claim describes correctly) the loop performs
exactly three attempts — independent of extra fuel — sleeps the uniform
draw, its double, then the capped double of that, and raises the terminal
`ValueError`. -/
theorem c1_retry_bound_violated :
    (∀ fuel : Nat, fetchGo badOutcomes 2 3 fuel initSt = none) ∧
    (∀ rq : ℚ, fetchGo allExcOutcomes rq 3 3 initSt = some (.valueErr, stAllExc rq)) ∧
    (∀ (rq : ℚ) (fuel : Nat),
      fetchGo allExcOutcomes rq 3 (fuel + 3) initSt = fetchGo allExcOutcomes rq 3 3 initSt) := by
  refine ⟨fun fuel => fetchGo_http500 fuel initSt rfl rfl, fun rq => ?_, fun rq fuel => ?_⟩
  · exact fetchGo_allExc rq 0
  · exact (fetchGo_allExc rq fuel).trans (fetchGo_allExc rq 0).symm

/-- Claim C2, counterexample.  With `top_k = 1` and one ranked result that
has both a snippet and one attribute, the ranked-results section produces
two Evidence Items, exceeding `top_k`. -/
theorem c2_ranked_cap_cex : apiS.k = 1 ∧ ¬ (apiS.rankedItems rAttr).length ≤ apiS.k := by
  decide

/-- Claim C2 as amended: at most `top_k` ranked results are consumed, and
the number of ranked-section Evidence Items is bounded by `top_k` plus the
total attribute count of the consumed results (one snippet item per result
plus one item per attribute), so it can exceed `top_k` only through
attribute items. -/
theorem c2_ranked_cap_amended (api : SerperAPI) (r : SerperResults) :
    (rankedResultsTaken api r).length ≤ api.k ∧
    (api.rankedItems r).length ≤ api.k + listAttrs (rankedResultsTaken api r) := by
  have htake : (rankedResultsTaken api r).length ≤ api.k := by
    rw [rankedResultsTaken]
    cases h : r.sections.lookup (result_key_for_type api.search_type) with
    | none => simp
    | some lst => simpa using List.length_take_le api.k lst
  refine ⟨htake, ?_⟩
  have hlen := listItems_length (rankedResultsTaken api r)
  rw [SerperAPI.rankedItems]
  omega

/-- Claim C3: the serialized batch text is exactly the spec's serialization
rule applied to the extracted items — each snippet, with `" [Source: <url>]"`
appended immediately after items carrying a link, all joined by single
spaces — and scenario C (`answerBox: {answer: "Paris", link: "https://x"}`,
no ranked results) serializes to exactly `"Paris [Source: https://x]"`. -/
theorem c3_serialization :
    (∀ (api : SerperAPI) (r : SerperResults),
      api._parse_results r = serializeSpec (api._parse_snippets_with_links r)) ∧
    apiS._parse_results rParis = "Paris [Source: https://x]" := by
  constructor
  · intro api r
    rw [SerperAPI._parse_results, serializeSpec]
    have hmap : ∀ l : List Item, l.map fmtItem = l.map (fun item =>
        item.snippet ++ (if item.link = "" then "" else " [Source: " ++ item.link ++ "]")) := by
      intro l
      induction l with
      | nil => rfl
      | cons it rest ih => simp [fmtItem_spec it, ih]
    rw [hmap]
  · decide

/-- Claim C5, counterexample.  The claim says the answer-box snippet yields
a second "Answer Box" item only when textually distinct from the answer; the
code performs no distinctness check: with answer and snippet both `"Paris"`,
two identical "Answer Box" items are produced. -/
theorem c5_distinctness_cex :
    abSame.snippet = abSame.answer ∧
    answerBoxItems abSame = [⟨"Paris", "", "Answer Box"⟩, ⟨"Paris", "", "Answer Box"⟩] ∧
    (apiS._parse_snippets_with_links rSame).length = 2 := by
  decide

/-- Claim C5 as amended: the answer-box answer, when a truthy string, yields
one "Answer Box" item, and the snippet, when a truthy string, always yields
a second "Answer Box" item with newlines collapsed — also when it is
textually identical to the answer. -/
theorem c5_snippet_amended (ab : AnswerBox) (a s : String)
    (ha : ab.answer = some (.pstr a)) (hs : ab.snippet = some (.pstr s))
    (hna : a ≠ "") (hns : s ≠ "") :
    answerBoxItems ab = [⟨a, ab.link, "Answer Box"⟩, ⟨collapseNl s, ab.link, "Answer Box"⟩] := by
  simp [answerBoxItems, ha, hs, pyTruthy, pyIsStr, pyStr, hna, hns]

/-- Claim C5 amended, witness at answer = snippet = "Paris". -/
theorem c5_snippet_amended_witness :
    answerBoxItems abSame =
      [⟨"Paris", "", "Answer Box"⟩, ⟨collapseNl "Paris", "", "Answer Box"⟩] :=
  c5_snippet_amended abSame "Paris" "Paris" rfl rfl (by decide) (by decide)

/-- Claim C6: when the extraction rules produce no items at all, the parser
emits exactly the fixed placeholder item with no source link, and the
serialized batch text is exactly `NO_RESULT_MSG`, which contains no source
marker. -/
theorem c6_placeholder (api : SerperAPI) (r : SerperResults) (h : api.rawItems r = []) :
    api._parse_snippets_with_links r = [noResultItem] ∧
    api._parse_results r = NO_RESULT_MSG ∧
    scanSrc NO_RESULT_MSG.data = [] := by
  have h1 : api._parse_snippets_with_links r = [noResultItem] := by
    simp [SerperAPI._parse_snippets_with_links, h]
  refine ⟨h1, ?_, by decide⟩
  rw [SerperAPI._parse_results, h1]
  rfl

/-- Claim C6, witness at the empty response. -/
theorem c6_placeholder_witness :
    apiS._parse_snippets_with_links rEmpty = [noResultItem] ∧
    apiS._parse_results rEmpty = NO_RESULT_MSG ∧
    scanSrc NO_RESULT_MSG.data = [] :=
  c6_placeholder apiS rEmpty rfl

/-- Claim C7 (orchestrator modelled from the spec): `verify` always returns
a `(Verdict | none, batches, usage)` triple; the batches passed in are
preserved as a prefix and usage only grows, so failures surface whatever was
accumulated; an LLM whose replies are never parseable yields a `none`
verdict with the usage of the original call plus the one corrective
re-prompt; a first-call search directive whose provider is exhausted yields
a `none` verdict with no batches and the usage of that single call. -/
theorem c7_verify_contract :
    (∀ (llm : Nat → Decision × Usage) (searcher : String → Option SearchBatch)
      (fuel i : Nat) (bs : List SearchBatch) (u : Usage),
      bs <+: (verifyGo llm searcher fuel i bs u).2.1 ∧
      u.input_tokens ≤ (verifyGo llm searcher fuel i bs u).2.2.input_tokens ∧
      u.output_tokens ≤ (verifyGo llm searcher fuel i bs u).2.2.output_tokens) ∧
    verify_atomic_claim "claim" llmUnparse searcherFail 5 = (none, [], ⟨20, 10⟩) ∧
    verify_atomic_claim "claim" llmSearch searcherFail 5 = (none, [], ⟨10, 5⟩) := by
  exact ⟨verifyGo_extends, rfl, rfl⟩

/-- Claim C8: serialization of a fixed structured response is deterministic:
two runs give byte-identical text, and the text depends only on the
configuration fields the parser reads (`k` and `search_type`) — not on the
credential or locale fields. -/
theorem c8_deterministic :
    (∀ (api : SerperAPI) (r : SerperResults), api._parse_results r = api._parse_results r) ∧
    (∀ (a b : SerperAPI) (r : SerperResults), a.k = b.k → a.search_type = b.search_type →
      a._parse_results r = b._parse_results r) := by
  refine ⟨fun api r => rfl, ?_⟩
  intro a b r hk hs
  cases a
  cases b
  simp only at hk hs
  subst hk
  subst hs
  rfl

/-- Claim C8, witness: identical parses for two configurations differing in
key, locale and time filter. -/
theorem c8_deterministic_witness :
    apiS._parse_results rParis = apiS._parse_results rParis ∧
    (⟨"key1", "us", "en", 1, none, "search"⟩ : SerperAPI)._parse_results rParis =
      (⟨"key2", "de", "fr", 1, some "qdr:d", "search"⟩ : SerperAPI)._parse_results rParis :=
  ⟨c8_deterministic.1 apiS rParis, c8_deterministic.2 _ _ rParis rfl rfl⟩

/-- Claim C9: an empty API key makes `run` fail with the assertion error for
every outcome stream and every fuel (in particular fuel 0: no request is
needed to reach the failure), and an `AssertionError` arising inside an
attempt is re-raised immediately by the retry loop, not counted or absorbed
as a retry. -/
theorem c9_missing_key :
    (∀ (api : SerperAPI) (o : Nat → Outcome) (rq : ℚ) (fuel : Nat),
      api.serper_api_key = "" → api.run o rq fuel = some (.error .assertionError)) ∧
    (∀ (o : Nat → Outcome) (rq : ℚ) (mr fuel : Nat) (st : LoopSt),
      o st.attempt = .assertExc → respTruthy st.response = false → st.num_fails < mr →
      fetchGo o rq mr (fuel + 1) st = some (.assertErr, { st with attempt := st.attempt + 1 })) := by
  constructor
  · intro api o rq fuel h
    rw [SerperAPI.run, if_pos h]
  · intro o rq mr fuel st h1 h2 h3
    rw [fetchGo_step _ _ _ _ _ ⟨h2, h3⟩, h1]

/-- Claim C9, witness: the empty-key configuration fails with the assertion
error at fuel 0, and the all-assertion stream is re-raised on the first
attempt. -/
theorem c9_missing_key_witness :
    apiNoKey.run assertOutcomes 2 0 = some (.error .assertionError) ∧
    fetchGo assertOutcomes 2 3 1 initSt = some (.assertErr, { initSt with attempt := 1 }) :=
  ⟨c9_missing_key.1 apiNoKey assertOutcomes 2 0 rfl,
   c9_missing_key.2 assertOutcomes 2 3 0 initSt rfl rfl (by decide)⟩

/-- Claim C10: a present but non-string answer-box `answer` or `snippet`
value is skipped exactly as if the field were absent — the parser stays
total and the remaining sections produce the same items. -/
theorem c10_nonstring_skipped (api : SerperAPI) (r : SerperResults) (ab : AnswerBox)
    (v : PyVal) (h : pyIsStr v = false) :
    (api._parse_snippets_with_links { r with answerBox := some { ab with answer := some v } } =
     api._parse_snippets_with_links { r with answerBox := some { ab with answer := none } }) ∧
    (api._parse_snippets_with_links { r with answerBox := some { ab with snippet := some v } } =
     api._parse_snippets_with_links { r with answerBox := some { ab with snippet := none } }) := by
  have h1 : answerBoxItems { ab with answer := some v } =
      answerBoxItems { ab with answer := none } := by
    simp [answerBoxItems, h]
  have h2 : answerBoxItems { ab with snippet := some v } =
      answerBoxItems { ab with snippet := none } := by
    simp [answerBoxItems, h]
  constructor <;>
    simp [SerperAPI._parse_snippets_with_links, SerperAPI.rawItems,
      SerperAPI.rankedItems, rankedResultsTaken, h1, h2]

/-- Claim C4: round-trip of the citation micro-format.  For a parsed batch
whose snippets contain no `"[Source:"` substring and whose present links are
well-formed URLs (start with `http(s)://` followed by at least one
character, contain no `']'`) and are pairwise distinct, scanning the
serialized text with the `\[Source: (https?://[^\]]+)\]` pattern recovers
exactly those distinct URLs in order, and deleting every such marker leaves
prose in which the scan finds no marker at all. -/
theorem c4_roundtrip (api : SerperAPI) (r : SerperResults)
    (hclean : ∀ it ∈ api._parse_snippets_with_links r, ¬ srcMark8 <:+: it.snippet.data)
    (hurl : ∀ it ∈ api._parse_snippets_with_links r,
      it.link ≠ "" → ']' ∉ it.link.data ∧ httpOk it.link.data = true)
    (hnd : (batchLinks api r).Nodup) :
    scanSrc (api._parse_results r).data = batchLinks api r ∧
    (scanSrc (api._parse_results r).data).Nodup ∧
    scanSrc (removeSrc (api._parse_results r).data) = [] := by
  have hc : ∀ it ∈ (api._parse_snippets_with_links r).map itemChars,
      ¬ srcMark8 <:+: it.1 := by
    intro it hit
    obtain ⟨x, hx, rfl⟩ := List.mem_map.1 hit
    exact hclean x hx
  have hl : ∀ it ∈ (api._parse_snippets_with_links r).map itemChars,
      it.2 ≠ [] → ']' ∉ it.2 ∧ httpOk it.2 = true := by
    intro it hit h2
    obtain ⟨x, hx, rfl⟩ := List.mem_map.1 hit
    refine hurl x hx fun hx2 => h2 ?_
    simp [itemChars, hx2]
  have hmain := strip_serialize ((api._parse_snippets_with_links r).map itemChars) []
    hc hl (Or.inl rfl)
  rw [List.append_nil, show stripPair ([] : Chars) = ([], []) from rfl] at hmain
  simp only [List.append_nil] at hmain
  have hscan : scanSrc (api._parse_results r).data = batchLinks api r := by
    show (stripPair (api._parse_results r).data).1 = _
    rw [parse_results_data, hmain]
    simp [batchLinks]
  have hrem : removeSrc (api._parse_results r).data =
      cleanL ((api._parse_snippets_with_links r).map itemChars) := by
    show (stripPair (api._parse_results r).data).2 = _
    rw [parse_results_data, hmain]
  refine ⟨hscan, hscan ▸ hnd, ?_⟩
  rw [hrem]
  have hfin := strip_cleanL ((api._parse_snippets_with_links r).map itemChars) []
    hc (Or.inl rfl)
  rw [List.append_nil, show stripPair ([] : Chars) = ([], []) from rfl] at hfin
  exact hfin

/-- Claim C4, witness: an answer-box item with link `https://x` plus a
ranked item with link `http://a.com/b`. -/
theorem c4_roundtrip_witness :
    scanSrc (apiS._parse_results rTwo).data = batchLinks apiS rTwo ∧
    (scanSrc (apiS._parse_results rTwo).data).Nodup ∧
    scanSrc (removeSrc (apiS._parse_results rTwo).data) = [] :=
  c4_roundtrip apiS rTwo (by decide) (by decide) (by decide)

/-- Claim C10, witness at the number `7`. -/
theorem c10_nonstring_skipped_witness :
    (apiS._parse_snippets_with_links
        { rEmpty with answerBox := some { abSame with answer := some (.pint 7) } } =
      apiS._parse_snippets_with_links
        { rEmpty with answerBox := some { abSame with answer := none } }) ∧
    (apiS._parse_snippets_with_links
        { rEmpty with answerBox := some { abSame with snippet := some (.pint 7) } } =
      apiS._parse_snippets_with_links
        { rEmpty with answerBox := some { abSame with snippet := none } }) :=
  c10_nonstring_skipped apiS rEmpty abSame (.pint 7) rfl

end Fire
